import Mathlib

/-!
Verification of the workflow execution engine (runner service, input
expression resolver, trigger dedup, workflow update validation) against its
natural-language specification.  The definitions below are shallow embeddings
of the TypeScript source files:

  * apps/runner/src/utils/input.utils.ts   (parseStepInputs, parseInput,
    calculateExpression, stringifyInput and the custom functions registered
    on the expression evaluator)
  * apps/runner/src/services/runner.service.ts (trigger dedup, action tree
    execution, sleep/wake, failure propagation)
  * apps/api/src/workflows/services/workflow.service.ts (updateOne)

JavaScript runtime values are modelled by the inductive `Value` below.
Numbers are modelled as integers (the examples in the specification only use
integral values); `NaN` and fractional floats are outside the model.
-/

/- JavaScript values as they occur in workflow inputs and outputs: a JSON
tree extended with `undefined` and `Date` (a date is carried as its ISO-8601
string).  Mutual lists are used instead of `List` so that every function on
values is structural and reduces definitionally. -/
mutual
inductive Value : Type where
  | undef : Value
  | vnull : Value
  | vbool : Bool → Value
  | num : Int → Value
  | str : String → Value
  | vdate : String → Value
  | arr : ValueList → Value
  | obj : Fields → Value
inductive ValueList : Type where
  | nil : ValueList
  | cons : Value → ValueList → ValueList
inductive Fields : Type where
  | nil : Fields
  | fcons : String → Value → Fields → Fields
end

/-- The single-quote character (written by code to stay clear of literal
quote handling in string heuristics). -/
def squoteChar : Char := Char.ofNat 39

/-- The left-brace character. -/
def lbraceChar : Char := Char.ofNat 123

/-- The right-brace character. -/
def rbraceChar : Char := Char.ofNat 125

/-- The backslash character. -/
def backslashChar : Char := Char.ofNat 92

/-- Key list of an object, in insertion order (JS `Object.keys`). -/
def Fields.keys : Fields → List String
  | .nil => []
  | .fcons k _ rest => k :: Fields.keys rest

/-- First value stored under a key (JS object keys are unique; lookup takes
the first occurrence). -/
def Fields.get? : Fields → String → Option Value
  | .nil, _ => none
  | .fcons k v rest, q => if k = q then some v else Fields.get? rest q

/-- Whether a key is present in the object (JS `key in obj` /
`Object.keys(obj).includes(key)`). -/
def Fields.hasKey (fs : Fields) (k : String) : Bool :=
  (Fields.get? fs k).isSome

/-- Modelled from the spec: `isEmptyObj` lives in
libs/common/src/utils/object.utils which is not under src/; per the spec an
object "that resolves to an empty object" is one with no keys. -/
def isEmptyObj : Fields → Bool
  | .nil => true
  | .fcons _ _ _ => false

/-- Element of an array by index, `undefined` when out of range. -/
def ValueList.getIdx : ValueList → Nat → Value
  | .nil, _ => .undef
  | .cons v _, 0 => v
  | .cons _ rest, n + 1 => ValueList.getIdx rest n

/-- JS falsiness (`!input`): `undefined`, `null`, `false`, `0` and the empty
string are falsy (`NaN` is outside the model). -/
def jsFalsy : Value → Bool
  | .undef => true
  | .vnull => true
  | .vbool b => !b
  | .num n => n == 0
  | .str s => s == ""
  | _ => false

/-- `typeof value === 'string' || typeof value === 'object'` — note that in
JS `typeof null`, arrays and dates are all `'object'`. -/
def isStringOrObject : Value → Bool
  | .str _ => true
  | .obj _ => true
  | .arr _ => true
  | .vnull => true
  | .vdate _ => true
  | _ => false

/- JS `String(value)` coercion.  Arrays join their elements with commas
(`Array.prototype.toString`), with `undefined`/`null` elements rendered
empty; plain objects render as `[object Object]`.  A date is rendered by its
stored ISO string (the model identifies a date with that string). -/
mutual
def jsString : Value → String
  | .undef => "undefined"
  | .vnull => "null"
  | .vbool b => if b then "true" else "false"
  | .num n => Int.repr n
  | .str s => s
  | .vdate iso => iso
  | .arr xs => jsStringList xs
  | .obj _ => "[object Object]"
def jsStringList : ValueList → String
  | .nil => ""
  | .cons v rest =>
    (match v with
     | .undef => ""
     | .vnull => ""
     | w => jsString w) ++
    (match rest with
     | .nil => ""
     | r => "," ++ jsStringList r)
end

/-- Escape for JSON string bodies (quote and backslash; control characters do
not occur in the workloads modelled here). -/
def jsonEscapeChar (c : Char) : String :=
  if c = '"' then String.mk [backslashChar, '"']
  else if c = backslashChar then String.mk [backslashChar, backslashChar]
  else String.singleton c

/-- A JSON-quoted string. -/
def jsonQuote (s : String) : String :=
  "\"" ++ String.join (s.data.map jsonEscapeChar) ++ "\""

/- JS `JSON.stringify`: keys holding `undefined` are dropped from objects,
`undefined` inside arrays serializes as `null`, dates serialize as their
ISO string. -/
mutual
def jsonStringify : Value → String
  | .undef => "null"
  | .vnull => "null"
  | .vbool b => if b then "true" else "false"
  | .num n => Int.repr n
  | .str s => jsonQuote s
  | .vdate iso => jsonQuote iso
  | .arr xs => "[" ++ jsonArrayBody xs ++ "]"
  | .obj fs => String.singleton lbraceChar ++ jsonObjBody fs ++ String.singleton rbraceChar
def jsonArrayBody : ValueList → String
  | .nil => ""
  | .cons v rest =>
    jsonStringify v ++
    (match rest with
     | .nil => ""
     | r => "," ++ jsonArrayBody r)
def jsonObjBody : Fields → String
  | .nil => ""
  | .fcons k v rest =>
    match v with
    | .undef => jsonObjBody rest
    | w =>
      jsonQuote k ++ ":" ++ jsonStringify w ++
      (match jsonObjBody rest with
       | "" => ""
       | r => "," ++ r)
end

/-- input.utils.ts `stringifyInput`: plain objects are JSON-serialized, dates
become their ISO string, `null`/`undefined` collapse to the empty string
(`?? ''`), and everything else keeps its JS string coercion (the source
returns the raw value, which both call sites then coerce to a string). -/
def stringifyInput : Value → String
  | .obj fs => jsonStringify (.obj fs)
  | .vdate iso => iso
  | .undef => ""
  | .vnull => ""
  | v => jsString v

/-- Whitespace trim on both ends (JS `String.prototype.trim`), implemented
on the character list so that it evaluates definitionally. -/
def jsTrim (s : String) : String :=
  String.mk (((s.data.dropWhile Char.isWhitespace).reverse.dropWhile Char.isWhitespace).reverse)

/-- Decimal parse of a string (used for numeric path keys and capture
references), implemented on the character list so that it evaluates
definitionally. -/
def strToNat? (s : String) : Option Nat :=
  if s.data ≠ [] ∧ s.data.all Char.isDigit then
    some (s.data.foldl (fun a c => a * 10 + (c.toNat - '0'.toNat)) 0)
  else none

/-- Prefix test on character lists (avoids typeclass lookup; used by the
first-occurrence replacement below). -/
def charsHavePrefix : List Char → List Char → Bool
  | [], _ => true
  | _ :: _, [] => false
  | p :: ps, c :: cs => p = c && charsHavePrefix ps cs

/-- JS `String.prototype.replace` with a plain string pattern: replaces the
first occurrence only.  Dollar-sequences in the replacement are not given
their JS meaning (none of the replacements produced by the resolver use
them). -/
def replaceFirstAux : List Char → List Char → List Char → List Char
  | [], pat, repl => if charsHavePrefix pat [] then repl else []
  | c :: cs, pat, repl =>
    if charsHavePrefix pat (c :: cs) then repl ++ (c :: cs).drop pat.length
    else c :: replaceFirstAux cs pat repl

/-- String-level wrapper of `replaceFirstAux`. -/
def replaceFirst (s pat repl : String) : String :=
  String.mk (replaceFirstAux s.data pat.data repl.data)

/-- One match of the placeholder pattern of input.utils.ts
(the regex `{{\s*([^}]+)\s*}}`): `whole` is the full matched text
`{{content}}` and `group` the content between the braces.  (The regex group
excludes leading whitespace; every consumer of the group trims it, so the
model keeps the raw content.) -/
structure PMatch where
  whole : String
  group : String

/-- Scanner for the global placeholder regex `{{\s*([^}]+)\s*}}` of
parseInput: at each position, a match needs `{{`, at least one non-`}`
character, and then `}}` immediately after the first `}`; on success
scanning resumes after the match, on failure at the next character. -/
def scanPlaceholders : Nat → List Char → List (List Char)
  | 0, _ => []
  | _ + 1, [] => []
  | fuel + 1, c :: cs =>
    if c = lbraceChar then
      match cs with
      | c2 :: rest =>
        if c2 = lbraceChar then
          let content := rest.takeWhile (fun d => d ≠ rbraceChar)
          let rem := rest.dropWhile (fun d => d ≠ rbraceChar)
          match rem with
          | _ :: r2 :: rest2 =>
            if r2 = rbraceChar ∧ content ≠ [] then
              content :: scanPlaceholders fuel rest2
            else scanPlaceholders fuel cs
          | _ => scanPlaceholders fuel cs
        else scanPlaceholders fuel cs
      | [] => []
    else scanPlaceholders fuel cs

/-- All placeholder matches of a string (`input.matchAll(variableRegex)`). -/
def findMatches (s : String) : List PMatch :=
  (scanPlaceholders (s.length + 1) s.data).map fun content =>
    ⟨String.mk (lbraceChar :: lbraceChar :: (content ++ [rbraceChar, rbraceChar])),
     String.mk content⟩

/-- Characters of the path-token character class `[\w[\]]` of the
`operatorsRegex` in calculateExpression (ASCII word characters plus square
brackets). -/
def tokenChar (c : Char) : Bool :=
  c.isAlphanum ∨ c = '_' ∨ c = '[' ∨ c = ']'

/-- Greedy `(\.[\w[\]]+)*` continuation: consumes as many `.segment` groups
as follow, returning the consumed characters and the remainder. -/
def takeDotSegs : Nat → List Char → List Char × List Char
  | 0, cs => ([], cs)
  | fuel + 1, cs =>
    match cs with
    | c :: rest =>
      if c = '.' then
        let seg := rest.takeWhile tokenChar
        let rest2 := rest.dropWhile tokenChar
        if seg = [] then ([], cs)
        else
          let (more, rest3) := takeDotSegs fuel rest2
          ('.' :: (seg ++ more), rest3)
      else ([], cs)
    | [] => ([], cs)

/-- One match of the dotted-path token regex
`[\w[\]]+\.[\w[\]]+(\.[\w[\]]+)*`: the token text and its start index in the
original string (the index feeds the quote-counting heuristic). -/
structure TMatch where
  tok : String
  index : Nat

/-- Scanner for the global dotted-path token regex: a token is a maximal run
of `[\w[\]]` characters followed by at least one `.segment` group; a run
with no dot continuation contains no match (the regex fails at every offset
inside it). -/
def scanTokens : Nat → Nat → List Char → List TMatch
  | 0, _, _ => []
  | _ + 1, _, [] => []
  | fuel + 1, pos, c :: cs =>
    if tokenChar c then
      let run := (c :: cs).takeWhile tokenChar
      let rest := (c :: cs).dropWhile tokenChar
      let (ext, rest2) := takeDotSegs (rest.length + 1) rest
      if ext = [] then scanTokens fuel (pos + run.length) rest
      else ⟨String.mk (run ++ ext), pos⟩ :: scanTokens fuel (pos + run.length + ext.length) rest2
    else scanTokens fuel (pos + 1) cs

/-- All dotted-path token matches of a string
(`input.matchAll(operatorsRegex)`). -/
def findTokens (s : String) : List TMatch :=
  scanTokens (s.length + 1) 0 s.data

/-- Quote characters counted by the "is this token inside a quoted literal"
heuristic (the regex `/['"]/g`; both quote kinds count, escaping is not
considered by the source). -/
def isQuoteChar (c : Char) : Bool :=
  c = '"' ∨ c = squoteChar

/-- Number of quote characters strictly before an index
(`input.substring(0, index).match(/['"]/g)`). -/
def countQuotesBefore (s : String) (idx : Nat) : Nat :=
  ((s.data.take idx).filter isQuoteChar).length

/-- Strip one layer of matching quotes from a bracket segment (lodash allows
`a["b"]`). -/
def stripQuotes (cs : List Char) : List Char :=
  match cs with
  | c :: _ :: _ =>
    if isQuoteChar c ∧ cs.getLast? = some c then (cs.drop 1).dropLast else cs
  | _ => cs

/-- Skip the `.` that may follow a closing bracket (`a[0].b` parses to the
keys `a`, `0`, `b`). -/
def dropLeadingDot : List Char → List Char
  | '.' :: rest => rest
  | cs => cs

/-- lodash `_.toPath` on a path string, simplified to the forms produced by
workflow inputs: segments split on `.`, bracket segments `[k]` become their
own key (quotes stripped). -/
def stringToPathAux : Nat → List Char → List Char → List String
  | 0, acc, _ => [String.mk acc]
  | _ + 1, acc, [] => if acc = [] then [] else [String.mk acc]
  | fuel + 1, acc, c :: cs =>
    if c = '.' then String.mk acc :: stringToPathAux fuel [] cs
    else if c = '[' then
      let body := cs.takeWhile (fun d => d ≠ ']')
      let rest := ((cs.dropWhile (fun d => d ≠ ']')).drop 1)
      let seg := String.mk (stripQuotes body)
      if acc = [] then seg :: stringToPathAux fuel [] (dropLeadingDot rest)
      else String.mk acc :: seg :: stringToPathAux fuel [] (dropLeadingDot rest)
    else stringToPathAux fuel (acc ++ [c]) cs

/-- Path-string parsing entry point. -/
def stringToPath (s : String) : List String :=
  stringToPathAux (s.length + 1) [] s.data

/-- Walk a parsed path through a value (`_.get`): object steps look keys up,
array steps accept numeric keys, anything else yields `undefined`. -/
def getPath : Value → List String → Value
  | v, [] => v
  | .obj fs, k :: ks =>
    match Fields.get? fs k with
    | some v => getPath v ks
    | none => .undef
  | .arr xs, k :: ks =>
    match strToNat? k with
    | some i => getPath (ValueList.getIdx xs i) ks
    | none => Value.undef
  | _, _ :: _ => Value.undef

/-- lodash `_.get(references, path)` against the output bag. -/
def lodashGet (references : Fields) (path : String) : Value :=
  getPath (.obj references) (stringToPath path)

/-- A segment of the translated `extract` template: after escaping every
regex metacharacter, each run of three escaped `*` becomes a capturing
wildcard `(.+)` (a fourth consecutive `*` stays a literal star, matching the
global replace of `\*\*\*+` in the source), and every other character is a
literal. -/
inductive TSeg : Type where
  | lit : Char → TSeg
  | wild : TSeg

/-- Translate an `extract` template into its segment list, consuming star
runs three at a time from the left exactly as the global regex replace
does. -/
def translateTemplate : Nat → List Char → List TSeg
  | 0, _ => []
  | _ + 1, [] => []
  | fuel + 1, c :: cs =>
    match c, cs with
    | '*', '*' :: '*' :: rest => TSeg.wild :: translateTemplate fuel rest
    | _, _ => TSeg.lit c :: translateTemplate fuel cs

/-- Template segments of an `extract` template string. -/
def templateSegs (template : String) : List TSeg :=
  translateTemplate (template.length + 1) template.data

/-- Whether the segments match a prefix of the text: a wildcard `(.+)`
consumes one or more non-newline characters (existential semantics, which is
what the truthiness test `str.match(regex)` observes). -/
def segsMatchFrom : Nat → List TSeg → List Char → Bool
  | 0, _, _ => false
  | _ + 1, [], _ => true
  | fuel + 1, .lit c :: rest, d :: cs => c = d && segsMatchFrom fuel rest cs
  | _ + 1, .lit _ :: _, [] => false
  | fuel + 1, .wild :: rest, c :: cs =>
    c ≠ '\n' && (segsMatchFrom fuel rest cs || segsMatchFrom fuel (.wild :: rest) cs)
  | _ + 1, .wild :: _, [] => false

/-- Unanchored match (`str.match(regex)` truthiness): the pattern may start
at any offset of the text. -/
def matchesAnywhere : Nat → List TSeg → List Char → Bool
  | 0, _, _ => false
  | fuel + 1, segs, cs =>
    segsMatchFrom (segs.length + cs.length + 1) segs cs ||
      match cs with
      | [] => false
      | _ :: cs2 => matchesAnywhere fuel segs cs2

/-- Whether the translated template matches anywhere in the text. -/
def templateMatches (template s : String) : Bool :=
  matchesAnywhere (s.length + 1) (templateSegs template) s.data

/-- Greedy capture assignment for the translated template at the current
offset: each wildcard takes as many characters as possible while the rest of
the pattern still matches (JS backtracking semantics); returns the captures
and the number of characters consumed. -/
def greedyCaps : Nat → List TSeg → List Char → Option (List String × Nat)
  | 0, _, _ => none
  | _ + 1, [], _ => some ([], 0)
  | fuel + 1, .lit c :: rest, d :: cs =>
    if c = d then (greedyCaps fuel rest cs).map (fun p => (p.1, p.2 + 1)) else none
  | _ + 1, .lit _ :: _, [] => none
  | fuel + 1, .wild :: rest, c :: cs =>
    if c = '\n' then none
    else
      match greedyCaps fuel (.wild :: rest) cs with
      | some (cap :: caps, n) => some ((String.singleton c ++ cap) :: caps, n + 1)
      | _ =>
        match greedyCaps fuel rest cs with
        | some (caps, n) => some (String.singleton c :: caps, n + 1)
        | none => none
  | _ + 1, .wild :: _, [] => none

/-- Substitute `$1`..`$9` (and `$$`) in a replacement string by the captured
groups, as `String.prototype.replace` does; a reference past the last group
is kept literally. -/
def applyDollars : Nat → List Char → List String → List Char
  | 0, cs, _ => cs
  | _ + 1, [], _ => []
  | fuel + 1, c :: cs, caps =>
    if c = '$' then
      match cs with
      | d :: cs2 =>
        if d = '$' then '$' :: applyDollars fuel cs2 caps
        else
          match strToNat? (String.singleton d) with
          | some n =>
            if 1 ≤ n ∧ n ≤ caps.length then
              (caps.getD (n - 1) "").data ++ applyDollars fuel cs2 caps
            else c :: d :: applyDollars fuel cs2 caps
          | none => c :: applyDollars fuel cs caps
      | [] => [c]
    else c :: applyDollars fuel cs caps

/-- Replace the leftmost (greedy) match of the translated template by the
replacement (with `$n` capture references), leaving the text unchanged when
there is no match — the `str.replace(new RegExp(regex), replace)` step of
`extract`. -/
def replaceTemplateMatch : Nat → List TSeg → List Char → List Char → List Char
  | 0, _, cs, _ => cs
  | fuel + 1, segs, cs, repl =>
    match greedyCaps (segs.length + cs.length + 1) segs cs with
    | some (caps, n) => applyDollars (repl.length + 1) repl caps ++ cs.drop n
    | none =>
      match cs with
      | [] => []
      | c :: cs2 => c :: replaceTemplateMatch fuel segs cs2 repl

/-- The `extract(str, template, replace)` function registered on the
expression evaluator (input.utils.ts lines 95-102): if the translated
template matches the string the replace is performed, otherwise the empty
string is returned. -/
def extractFn (str template replace : String) : String :=
  if templateMatches template str then
    String.mk (replaceTemplateMatch (str.length + 1) (templateSegs template) str.data replace.data)
  else ""

/-- JS `String.prototype.substring` index clamping: negatives become `0`,
values past the end become the length, and the two indices are swapped when
out of order. -/
def jsSubstring (s : String) (a b : Int) : String :=
  let len : Int := Int.ofNat s.length
  let a2 := if a < 0 then 0 else if a > len then len else a
  let b2 := if b < 0 then 0 else if b > len then len else b
  let lo := if a2 ≤ b2 then a2 else b2
  let hi := if a2 ≤ b2 then b2 else a2
  String.mk ((s.data.take hi.toNat).drop lo.toNat)

/-- The `substring(str, start, end)` function registered on the evaluator:
falsy input is returned unchanged, otherwise the input is coerced to a
string and sliced. -/
def substringFn (str : Value) (a b : Int) : Value :=
  if jsFalsy str then str else .str (jsSubstring (jsString str) a b)

/-- The `lowercase(str)` function registered on the evaluator. -/
def lowercaseFn (str : Value) : Value :=
  if jsFalsy str then str else .str (jsString str).toLower

/-- The `uppercase(str)` function registered on the evaluator. -/
def uppercaseFn (str : Value) : Value :=
  if jsFalsy str then str else .str (jsString str).toUpper

/-- Tokens of the expression evaluator (modelled from the spec, see
`mathEval`). -/
inductive MTok : Type where
  | tnum : Int → MTok
  | tstr : String → MTok
  | tid : String → MTok
  | tplus : MTok
  | tminus : MTok
  | tstar : MTok
  | tlparen : MTok
  | trparen : MTok
  | tcomma : MTok

/-- Numeric value of a digit run. -/
def digitsToInt (ds : List Char) : Int :=
  Int.ofNat (ds.foldl (fun acc d => acc * 10 + (d.toNat - '0'.toNat)) 0)

/-- Tokenizer of the expression evaluator: whitespace separated numbers,
quoted strings (either quote kind), identifiers and the operator characters
`+ - * ( ) ,`; any other character is a tokenizer error. -/
def tokenizeExpr : Nat → List Char → Except String (List MTok)
  | 0, _ => .error "tokenizer out of fuel"
  | _ + 1, [] => .ok []
  | fuel + 1, c :: cs =>
    if c = ' ' ∨ c = '\t' then tokenizeExpr fuel cs
    else if c.isDigit then
      let ds := (c :: cs).takeWhile Char.isDigit
      let rest := (c :: cs).dropWhile Char.isDigit
      (tokenizeExpr fuel rest).map (fun ts => MTok.tnum (digitsToInt ds) :: ts)
    else if c.isAlpha ∨ c = '_' then
      let ws := (c :: cs).takeWhile (fun d => d.isAlphanum ∨ d = '_')
      let rest := (c :: cs).dropWhile (fun d => d.isAlphanum ∨ d = '_')
      (tokenizeExpr fuel rest).map (fun ts => MTok.tid (String.mk ws) :: ts)
    else if isQuoteChar c then
      let body := cs.takeWhile (fun d => d ≠ c)
      match cs.dropWhile (fun d => d ≠ c) with
      | _ :: rest => (tokenizeExpr fuel rest).map (fun ts => MTok.tstr (String.mk body) :: ts)
      | [] => .error "unterminated string literal"
    else if c = '+' then (tokenizeExpr fuel cs).map (MTok.tplus :: ·)
    else if c = '-' then (tokenizeExpr fuel cs).map (MTok.tminus :: ·)
    else if c = '*' then (tokenizeExpr fuel cs).map (MTok.tstar :: ·)
    else if c = '(' then (tokenizeExpr fuel cs).map (MTok.tlparen :: ·)
    else if c = ')' then (tokenizeExpr fuel cs).map (MTok.trparen :: ·)
    else if c = ',' then (tokenizeExpr fuel cs).map (MTok.tcomma :: ·)
    else .error "unexpected character in expression"

/-- Addition of evaluator values: numbers add, strings concatenate, any
other combination is an evaluation error. -/
def evalPlus : Value → Value → Except String Value
  | .num a, .num b => .ok (.num (a + b))
  | .str a, .str b => .ok (.str (a ++ b))
  | _, _ => .error "invalid operands for addition"

/-- Subtraction of evaluator values (numbers only). -/
def evalMinus : Value → Value → Except String Value
  | .num a, .num b => .ok (.num (a - b))
  | _, _ => .error "invalid operands for subtraction"

/-- Multiplication of evaluator values (numbers only). -/
def evalTimes : Value → Value → Except String Value
  | .num a, .num b => .ok (.num (a * b))
  | _, _ => .error "invalid operands for multiplication"

/-- Application of the functions the runner registers on the evaluator
(input.utils.ts lines 87-102); any other identifier is an undefined-symbol
error. -/
def applyFn (name : String) (args : List Value) : Except String Value :=
  if name = "substring" then
    match args with
    | [s, .num a, .num b] => .ok (substringFn s a b)
    | _ => .error "invalid arguments for substring"
  else if name = "lowercase" then
    match args with
    | [s] => .ok (lowercaseFn s)
    | _ => .error "invalid arguments for lowercase"
  else if name = "uppercase" then
    match args with
    | [s] => .ok (uppercaseFn s)
    | _ => .error "invalid arguments for uppercase"
  else if name = "extract" then
    match args with
    | [.str s, .str t, .str r] => .ok (.str (extractFn s t r))
    | _ => .error "invalid arguments for extract"
  else .error ("undefined function " ++ name)

/- Recursive-descent evaluation of the token stream: additive expressions
over multiplicative ones over unary minus over atoms (number, string,
function call, parenthesized expression).  A bare identifier is an
undefined-symbol error, as in mathjs. -/
mutual
def evalAdd : Nat → List MTok → Except String (Value × List MTok)
  | 0, _ => .error "evaluator out of fuel"
  | fuel + 1, toks => do
    let (v, rest) ← evalMul fuel toks
    evalAddRest fuel v rest
def evalAddRest : Nat → Value → List MTok → Except String (Value × List MTok)
  | 0, _, _ => .error "evaluator out of fuel"
  | fuel + 1, acc, .tplus :: rest => do
    let (v, rest2) ← evalMul fuel rest
    let s ← evalPlus acc v
    evalAddRest fuel s rest2
  | fuel + 1, acc, .tminus :: rest => do
    let (v, rest2) ← evalMul fuel rest
    let s ← evalMinus acc v
    evalAddRest fuel s rest2
  | _ + 1, acc, toks => .ok (acc, toks)
def evalMul : Nat → List MTok → Except String (Value × List MTok)
  | 0, _ => .error "evaluator out of fuel"
  | fuel + 1, toks => do
    let (v, rest) ← evalUnary fuel toks
    evalMulRest fuel v rest
def evalMulRest : Nat → Value → List MTok → Except String (Value × List MTok)
  | 0, _, _ => .error "evaluator out of fuel"
  | fuel + 1, acc, .tstar :: rest => do
    let (v, rest2) ← evalUnary fuel rest
    let s ← evalTimes acc v
    evalMulRest fuel s rest2
  | _ + 1, acc, toks => .ok (acc, toks)
def evalUnary : Nat → List MTok → Except String (Value × List MTok)
  | 0, _ => .error "evaluator out of fuel"
  | fuel + 1, .tminus :: rest => do
    let (v, rest2) ← evalUnary fuel rest
    match v with
    | .num n => .ok (.num (-n), rest2)
    | _ => .error "invalid operand for unary minus"
  | fuel + 1, toks => evalAtom fuel toks
def evalAtom : Nat → List MTok → Except String (Value × List MTok)
  | 0, _ => .error "evaluator out of fuel"
  | _ + 1, .tnum n :: rest => .ok (.num n, rest)
  | _ + 1, .tstr s :: rest => .ok (.str s, rest)
  | fuel + 1, .tid name :: .tlparen :: rest => do
    let (args, rest2) ← evalArgs fuel rest
    let v ← applyFn name args
    .ok (v, rest2)
  | _ + 1, .tid name :: _ => .error ("undefined symbol " ++ name)
  | fuel + 1, .tlparen :: rest => do
    let (v, rest2) ← evalAdd fuel rest
    match rest2 with
    | .trparen :: rest3 => .ok (v, rest3)
    | _ => .error "expected closing parenthesis"
  | _ + 1, _ => .error "unexpected token in expression"
def evalArgs : Nat → List MTok → Except String (List Value × List MTok)
  | 0, _ => .error "evaluator out of fuel"
  | _ + 1, .trparen :: rest => .ok ([], rest)
  | fuel + 1, toks => do
    let (v, rest) ← evalAdd fuel toks
    match rest with
    | .tcomma :: rest2 => do
      let (vs, rest3) ← evalArgs fuel rest2
      .ok (v :: vs, rest3)
    | .trparen :: rest2 => .ok ([v], rest2)
    | _ => .error "expected comma or closing parenthesis"
end

/-- Modelled from the spec: the "general arithmetic/string expression
evaluator" (mathjs `parser.evaluate`, an external dependency) applied to the
substituted expression string, together with the four custom functions the
runner registers on it.  Numbers are modelled as integers; the model covers
addition, subtraction, multiplication, unary minus, string literals,
parentheses and function calls, and reports anything else as an evaluation
error (mathjs throws). -/
def mathEval (s : String) : Except String Value := do
  let toks ← tokenizeExpr (s.length + 1) s.data
  let (v, rest) ← evalAdd (8 * (toks.length + 1)) toks
  match rest with
  | [] => .ok v
  | _ => .error "unexpected trailing tokens"

/-- The token-substitution step of `calculateExpression` (input.utils.ts
lines 71-84): every dotted-path token found in the input is replaced (first
occurrence in the accumulated string) by its value from the output bag —
strings and `typeof === 'object'` values are stringified and wrapped in
double quotes, other values take their JS string coercion — unless the
token is preceded in the original input by an odd number of quote
characters, in which case it is skipped. -/
def substituteTokens (input : String) (references : Fields) : String :=
  (findTokens input).foldl
    (fun prev m =>
      if countQuotesBefore input m.index % 2 = 1 then prev
      else
        let v := lodashGet references m.tok
        let repl :=
          if isStringOrObject v then "\"" ++ stringifyInput v ++ "\"" else jsString v
        replaceFirst prev m.tok repl)
    input

/-- input.utils.ts `calculateExpression`: when the whole (trimmed) input is
exactly one dotted-path token the raw value is looked up and returned with
its type preserved; otherwise tokens are substituted into the expression
string, which is then handed to the general evaluator. -/
def calculateExpression (input : String) (references : Fields) : Except String Value :=
  match findTokens input with
  | [m] =>
    if m.tok = jsTrim input then .ok (lodashGet references input)
    else mathEval (substituteTokens input references)
  | _ => mathEval (substituteTokens input references)

/-- The placeholder-substitution reduce of `parseInput`'s string branch
(input.utils.ts lines 34-36): each placeholder's expression is evaluated,
stringified with `stringifyInput`, and substituted for the first occurrence
of the matched text; an expression error aborts the whole resolution. -/
def substitutePlaceholders (outputs : Fields) : List PMatch → String → Except String String
  | [], s => .ok s
  | m :: rest, s => do
    let v ← calculateExpression (jsTrim m.group) outputs
    substitutePlaceholders outputs rest (replaceFirst s m.whole (stringifyInput v))

/- input.utils.ts `parseInput`: falsy inputs pass through; a string that is
(after trimming) exactly one placeholder returns that placeholder's
evaluated value as-is, any other string has every placeholder stringified
and substituted in place; arrays resolve element-wise; an empty object
resolves to `undefined` (dropped on JSON serialization), any other object
resolves key-wise; remaining scalars pass through. -/
mutual
def parseInput (input : Value) (outputs : Fields) : Except String Value :=
  if jsFalsy input then .ok input
  else
    match input with
    | .str s =>
      match findMatches s with
      | [m] =>
        if jsTrim s = m.whole then calculateExpression (jsTrim m.group) outputs
        else (substitutePlaceholders outputs [m] s).map Value.str
      | ms => (substitutePlaceholders outputs ms s).map Value.str
    | .arr xs => (parseInputList xs outputs).map Value.arr
    | .obj fs =>
      if isEmptyObj fs then .ok .undef
      else (parseInputFields fs outputs).map Value.obj
    | v => .ok v
termination_by structural input
def parseInputList (xs : ValueList) (outputs : Fields) : Except String ValueList :=
  match xs with
  | .nil => .ok .nil
  | .cons v rest => do
    let v2 ← parseInput v outputs
    let rest2 ← parseInputList rest outputs
    .ok (.cons v2 rest2)
termination_by structural xs
def parseInputFields (fs : Fields) (outputs : Fields) : Except String Fields :=
  match fs with
  | .nil => .ok .nil
  | .fcons k v rest => do
    let v2 ← parseInput v outputs
    let rest2 ← parseInputFields rest outputs
    .ok (.fcons k v2 rest2)
termination_by structural fs
end

/-- input.utils.ts `parseStepInputs`: resolves every top-level input entry
with `parseInput`, keeping every key (a key whose value resolves to
`undefined` is still assigned, as `parsedInputs[key] = undefined` in JS). -/
def parseStepInputs (inputs : Fields) (outputs : Fields) : Except String Fields :=
  match inputs with
  | .nil => .ok .nil
  | .fcons k v rest => do
    let v2 ← parseInput v outputs
    let rest2 ← parseStepInputs rest outputs
    .ok (.fcons k v2 rest2)

/-- One polled trigger item, as produced by `extractTriggerItems`: its
identifier (already string-coerced, `item.id.toString()`) and its payload.
The dedup logic below receives this newest-first list as input. -/
structure TriggerItem where
  id : String
  item : Value

/-- The dedup computation of `runWorkflowTriggerCheck` (runner.service.ts
lines 140-151): with a prior cursor found at index `k` of the newest-first
id list, the new items are the first `k`; with a cursor that is absent from
the list, all items are new; without a cursor, only the newest item is
new. -/
def computeNewItems (lastId : Option String) (items : List TriggerItem) : List TriggerItem :=
  match lastId with
  | some l =>
    match (items.map (fun i => i.id)).findIdx? (fun x => x = l) with
    | none => items
    | some k => items.take k
  | none => items.take 1

/-- The cursor stored after a trigger check: when at least one item is new
the trigger is updated with `lastId: triggerIds[0]` (runner.service.ts line
180); when no item is new the check returns early and the cursor keeps its
prior value. -/
def triggerCheckCursor (lastId : Option String) (items : List TriggerItem) : Option String :=
  if (computeNewItems lastId items).isEmpty then lastId
  else (items.map (fun i => i.id)).head?

/-- What happens at one action node when the tree executor reaches it:
credential resolution can fail (runner.service.ts lines 234-238 and
312-347), input resolution can fail (lines 240-253), the operation can fail
(lines 255-278), or the operation succeeds with outputs, an optional branch
condition and an optional sleep instant. -/
inductive StepBehavior : Type where
  | credentialsFailure : StepBehavior
  | inputsFailure : StepBehavior
  | operationFailure : StepBehavior
  | operationSuccess : Fields → Value → Option Nat → StepBehavior

/- A workflow action node with its outgoing edges; each edge carries an
optional string condition and its target node (the `findById` lookups of the
source are modelled as always finding the referenced node, so targets are
embedded directly and the graph is the acyclic unfolding the spec
assumes). -/
mutual
inductive WAction : Type where
  | mk : String → StepBehavior → EdgeList → WAction
inductive EdgeList : Type where
  | nil : EdgeList
  | econs : Option String → WAction → EdgeList → EdgeList
end

/-- Identifier of an action node. -/
def WAction.id : WAction → String
  | .mk i _ _ => i

/-- Behavior of an action node. -/
def WAction.behavior : WAction → StepBehavior
  | .mk _ b _ => b

/-- Outgoing edges of an action node. -/
def WAction.next : WAction → EdgeList
  | .mk _ _ n => n

/-- Targets of an edge list, ignoring conditions. -/
def edgeTargets : EdgeList → List WAction
  | .nil => []
  | .econs _ t rest => t :: edgeTargets rest

/-- The output bag: a mapping from node identity to that node's output
record, accumulated along one execution path. -/
abbrev Bag : Type := List (String × Fields)

/-- The bag extension `{ ...previousOutputs, [workflowAction.id]:
runResponse.outputs }` (runner.service.ts lines 280-283): an existing key is
overwritten in place, a new key is appended. -/
def bagInsert (bag : Bag) (k : String) (v : Fields) : Bag :=
  if (List.any bag (fun p => p.1 = k)) then
    List.map (fun p => if p.1 = k then (k, v) else p) bag
  else bag ++ [(k, v)]

/-- Observable persistence events of a tree execution, in program order:
`addRunningAction`, `markActionAsCompleted`, `markActionAsFailed` (via
`onActionFailure`), `sleepWorkflowRun` with the persisted continuation bag,
`wakeUpWorkflowRun`'s status flip, and `markWorkflowRunAsCompleted`. -/
inductive RunEvent : Type where
  | actionRunning : String → RunEvent
  | actionCompleted : String → RunEvent
  | actionFailed : String → RunEvent
  | sleepPersisted : String → Bag → RunEvent
  | runAwake : RunEvent
  | runCompleted : RunEvent

/-- The edge filter of `runWorkflowActionsTree` (runner.service.ts lines
296-301): `!nextAction.condition` (no condition, or the empty string, both
falsy) always selects the edge; otherwise the edge is selected exactly when
its condition equals the template-string form of the operation's returned
condition. -/
def edgeSelected (condition : Option String) (condStr : String) : Bool :=
  match condition with
  | none => true
  | some s => if s = "" then true else s = condStr

/- `runWorkflowActionsTree` (runner.service.ts lines 207-310) as a trace
function: it returns the persistence events it emits and whether it threw.
Credential-resolution failure runs the failure callback and then throws out
of the tree call (the call at lines 234-238 is not wrapped in try/catch);
input-resolution and operation failures are caught and end the branch with a
return; a sleeping result persists one continuation and ends the branch; and
otherwise the selected next actions run sequentially, a throw aborting the
loop over them. -/
mutual
def runTree : WAction → Bag → List RunEvent × Bool
  | .mk i beh next, bag =>
    match beh with
    | .credentialsFailure => ([.actionRunning i, .actionFailed i], true)
    | .inputsFailure => ([.actionRunning i, .actionFailed i], false)
    | .operationFailure => ([.actionRunning i, .actionFailed i], false)
    | .operationSuccess outs cond sleepUntil =>
      match sleepUntil with
      | some _ =>
        ([.actionRunning i, .actionCompleted i, .sleepPersisted i (bagInsert bag i outs)], false)
      | none =>
        let r := runEdges next (jsString cond) (bagInsert bag i outs)
        (.actionRunning i :: .actionCompleted i :: r.1, r.2)
termination_by structural a => a
def runEdges : EdgeList → String → Bag → List RunEvent × Bool
  | .nil, _, _ => ([], false)
  | .econs c t rest, condStr, bag =>
    if edgeSelected c condStr then
      let r := runTree t bag
      if r.2 then (r.1, true)
      else
        let r2 := runEdges rest condStr bag
        (r.1 ++ r2.1, r2.2)
    else runEdges rest condStr bag
termination_by structural es => es
end

/-- `Promise.all` over the root actions for one seeded bag
(runner.service.ts lines 200-202): every root branch starts and runs to its
own end (a rejection does not cancel the siblings), and the awaited result
rejects when any branch threw. -/
def runTrees (roots : List WAction) (bag : Bag) : List RunEvent × Bool :=
  (roots.foldr (fun a acc => (runTree a bag).1 ++ acc) [],
   roots.any (fun a => (runTree a bag).2))

/-- The loop of `runWorkflowActions` over the seeded bags (runner.service.ts
lines 195-205): bags run in order; a rejected `Promise.all` makes the
`await` throw, aborting the loop and skipping `markWorkflowRunAsCompleted`;
only when every bag finishes cleanly is the run-completed mark appended. -/
def runBags (roots : List WAction) : List Bag → List RunEvent
  | [] => [.runCompleted]
  | bag :: rest =>
    let r := runTrees roots bag
    if r.2 then r.1 else r.1 ++ runBags roots rest

/-- `runWorkflowActions` entry point. -/
def runWorkflowActions (roots : List WAction) (bags : List Bag) : List RunEvent :=
  runBags roots bags

/-- `wakeUpWorkflowRun` (runner.service.ts lines 374-387): the run is marked
awake, then every declared next action of the slept node runs with the
snapshotted bag — the edge-condition filter is not applied here — and the
run is marked completed once all of them finish (skipped when one threw). -/
def wakeUpWorkflowRun (sleptAction : WAction) (storedBag : Bag) : List RunEvent :=
  let evts := (edgeTargets sleptAction.next).foldr (fun t acc => (runTree t storedBag).1 ++ acc) []
  let threw := (edgeTargets sleptAction.next).any (fun t => (runTree t storedBag).2)
  .runAwake :: (if threw then evts else evts ++ [.runCompleted])

/-- A workflow record as far as update validation is concerned
(apps/api/src/workflows/services/workflow.service.ts). -/
structure Workflow : Type where
  id : String
  owner : String
  name : String
  runOnFailure : Option String

/-- A partial update record (`DeepPartial<Workflow>`). -/
structure WorkflowUpdate : Type where
  name : Option String
  runOnFailure : Option String

/-- Errors surfaced by the workflow service. -/
inductive ApiError : Type where
  | notFound : ApiError
  | badRequest : String → ApiError

/-- `findById` over the workflow collection. -/
def findWorkflowById (db : List Workflow) (id : String) : Option Workflow :=
  db.find? (fun w => w.id = id)

/-- The merge performed by the base-service update: present fields of the
patch replace the stored ones. -/
def applyWorkflowUpdate (w : Workflow) (u : WorkflowUpdate) : Workflow :=
  { w with
    name := u.name.getD w.name,
    runOnFailure := match u.runOnFailure with | some r => some r | none => w.runOnFailure }

/-- `WorkflowService.updateOne` (workflow.service.ts lines 26-38): a missing
workflow is a not-found error; a patch whose `runOnFailure` equals the
workflow's own id is rejected with a bad-request error before any write;
otherwise the patch is applied. -/
def WorkflowService.updateOne (db : List Workflow) (id : String) (u : WorkflowUpdate) :
    Except ApiError (List Workflow) :=
  match findWorkflowById db id with
  | none => .error .notFound
  | some w =>
    if u.runOnFailure = some w.id then
      .error (.badRequest "Run On Failure cannot be set with the same workflow ID.")
    else .ok (db.map fun x => if x.id = id then applyWorkflowUpdate x u else x)

/-- The state of the collection after an update attempt: a thrown validation
error leaves the stored records untouched. -/
def updateOneState (db : List Workflow) (id : String) (u : WorkflowUpdate) : List Workflow :=
  match WorkflowService.updateOne db id u with
  | .error _ => db
  | .ok db2 => db2

/-- Claim C1: for every trigger check over the newest-first polled item
list, a prior cursor found at position k yields exactly the first k items as
new; a prior cursor absent from the list yields all items as new; no prior
cursor yields exactly the single newest item; and after a successful check
with at least one new item the stored cursor equals the newest polled
item's id. -/
theorem spec_C1 :
    (∀ (l : String) (items : List TriggerItem) (k : Nat),
      (items.map (fun i => i.id)).findIdx? (fun x => x = l) = some k →
      computeNewItems (some l) items = items.take k)
  ∧ (∀ (l : String) (items : List TriggerItem),
      (items.map (fun i => i.id)).findIdx? (fun x => x = l) = none →
      computeNewItems (some l) items = items)
  ∧ (∀ (h : TriggerItem) (t : List TriggerItem),
      computeNewItems none (h :: t) = [h])
  ∧ (∀ (lastId : Option String) (items : List TriggerItem),
      computeNewItems lastId items ≠ [] →
      ∃ h t, items = h :: t ∧ triggerCheckCursor lastId items = some h.id) := by
  refine ⟨?_, ?_, ?_, ?_⟩
  · intro l items k hfind
    simp [computeNewItems, hfind]
  · intro l items hfind
    simp [computeNewItems, hfind]
  · intro h t
    simp [computeNewItems]
  · intro lastId items hne
    match items with
    | [] =>
      exfalso
      apply hne
      cases lastId with
      | none => simp [computeNewItems]
      | some l => simp [computeNewItems]
    | h :: t =>
      refine ⟨h, t, rfl, ?_⟩
      have hempty : (computeNewItems lastId (h :: t)).isEmpty = false := by
        cases hc : computeNewItems lastId (h :: t) with
        | nil => exact absurd hc hne
        | cons x xs => rfl
      simp [triggerCheckCursor, hempty]

/-- Concrete instantiation of `spec_C1` on the newest-first id list
c, b, a. -/
theorem spec_C1_witness :
    (computeNewItems (some "b")
        [⟨"c", .undef⟩, ⟨"b", .undef⟩, ⟨"a", .undef⟩] =
      [⟨"c", .undef⟩])
  ∧ (computeNewItems (some "z")
        [⟨"c", .undef⟩, ⟨"b", .undef⟩, ⟨"a", .undef⟩] =
      [⟨"c", .undef⟩, ⟨"b", .undef⟩, ⟨"a", .undef⟩])
  ∧ (computeNewItems none
        [⟨"c", .undef⟩, ⟨"b", .undef⟩, ⟨"a", .undef⟩] =
      [⟨"c", .undef⟩])
  ∧ (∃ h t,
      ([⟨"c", .undef⟩, ⟨"b", .undef⟩, ⟨"a", .undef⟩] : List TriggerItem) = h :: t ∧
      triggerCheckCursor none [⟨"c", .undef⟩, ⟨"b", .undef⟩, ⟨"a", .undef⟩] = some h.id) := by
  refine ⟨?_, ?_, ?_, ?_⟩
  · exact spec_C1.1 "b" [⟨"c", .undef⟩, ⟨"b", .undef⟩, ⟨"a", .undef⟩] 1 rfl
  · exact spec_C1.2.1 "z" [⟨"c", .undef⟩, ⟨"b", .undef⟩, ⟨"a", .undef⟩] rfl
  · exact spec_C1.2.2.1 ⟨"c", .undef⟩ [⟨"b", .undef⟩, ⟨"a", .undef⟩]
  · exact spec_C1.2.2.2 none [⟨"c", .undef⟩, ⟨"b", .undef⟩, ⟨"a", .undef⟩]
      (by intro h; exact List.noConfusion h)

/-- Bind on `Except` evaluated at a success (reduction lemma for the
monadic folds below). -/
theorem exceptBindOk {e a b : Type} (x : a) (f : a → Except e b) :
    (Except.ok x >>= f) = f x := rfl

/-- Bind on `Except` evaluated at an error. -/
theorem exceptBindError {e a b : Type} (err : e) (f : a → Except e b) :
    ((Except.error err : Except e a) >>= f) = Except.error err := rfl

/-- Key preservation of `parseStepInputs`, by structural recursion over the
input mapping. -/
theorem parseStepInputs_keys :
    ∀ (inputs outputs out : Fields), parseStepInputs inputs outputs = .ok out →
      Fields.keys out = Fields.keys inputs
  | .nil, outputs, out, h => by
    simp [parseStepInputs] at h
    subst h
    rfl
  | .fcons k v rest, outputs, out, h => by
    cases hv : parseInput v outputs with
    | error e => simp [parseStepInputs, hv, exceptBindError] at h
    | ok v2 =>
      cases hr : parseStepInputs rest outputs with
      | error e => simp [parseStepInputs, hv, hr, exceptBindOk, exceptBindError] at h
      | ok rest2 =>
        have ih := parseStepInputs_keys rest outputs rest2 hr
        simp [parseStepInputs, hv, hr, exceptBindOk] at h
        subst h
        simp [Fields.keys, ih]

/-- Claim C10: the resolved mapping returned by `parseStepInputs` has
exactly the top-level key set of the input mapping — no key is added or
removed, and a key whose value resolves to `undefined` (for instance an
empty-object value) stays present with an `undefined` value. -/
theorem spec_C10 :
    (∀ (inputs outputs out : Fields), parseStepInputs inputs outputs = .ok out →
      Fields.keys out = Fields.keys inputs)
  ∧ parseStepInputs (.fcons "a" (.obj .nil) .nil) .nil =
      .ok (.fcons "a" .undef .nil) := by
  exact ⟨parseStepInputs_keys, rfl⟩

/-- Concrete instantiation of `spec_C10`: a key whose value resolves to
`undefined` is still present, so the key lists coincide. -/
theorem spec_C10_witness :
    Fields.keys (.fcons "a" Value.undef .nil) =
      Fields.keys (.fcons "a" (Value.obj .nil) .nil) :=
  spec_C10.1 (.fcons "a" (.obj .nil) .nil) .nil (.fcons "a" .undef .nil) rfl

/-- Map on `Except` evaluated at a success. -/
theorem exceptMapOk {e a b : Type} (f : a → b) (x : a) :
    (Except.ok x : Except e a).map f = Except.ok (f x) := rfl

/-- Map on `Except` evaluated at an error. -/
theorem exceptMapError {e a b : Type} (f : a → b) (err : e) :
    (Except.error err : Except e a).map f = Except.error err := rfl

/-- One-step unfolding of `parseInput` on a string value (definitional,
since the recursion is structural). -/
theorem parseInput_str_unfold (s : String) (outputs : Fields) :
    parseInput (Value.str s) outputs =
      (if jsFalsy (Value.str s) = true then Except.ok (Value.str s)
       else
         match findMatches s with
         | [m] =>
           if jsTrim s = m.whole then calculateExpression (jsTrim m.group) outputs
           else (substitutePlaceholders outputs [m] s).map Value.str
         | ms => (substitutePlaceholders outputs ms s).map Value.str) := rfl

/-- Claim C3: a string that is (after trimming) exactly one placeholder
resolves to the placeholder's evaluated value with its type preserved;
every other string has its placeholders stringified and substituted in
place, producing a string.  In particular `{{ foo.bar }}` against
`foo.bar = 5` gives the number 5 and `Value: {{ foo.bar }}` gives the string
`Value: 5`. -/
theorem spec_C3 :
    (∀ (s : String) (outputs : Fields) (m : PMatch),
      findMatches s = [m] → jsTrim s = m.whole →
      parseInput (.str s) outputs = calculateExpression (jsTrim m.group) outputs)
  ∧ (∀ (s : String) (outputs : Fields),
      (∀ m : PMatch, findMatches s = [m] → jsTrim s ≠ m.whole) →
      parseInput (.str s) outputs =
        (substitutePlaceholders outputs (findMatches s) s).map Value.str)
  ∧ parseInput (.str "\x7b\x7b foo.bar \x7d\x7d")
      (.fcons "foo" (.obj (.fcons "bar" (.num 5) .nil)) .nil) = .ok (.num 5)
  ∧ parseInput (.str "\x7b\x7b foo.bar \x7d\x7d")
      (.fcons "foo" (.obj (.fcons "bar" (.num 5) .nil)) .nil) ≠ .ok (.str "5")
  ∧ parseInput (.str "Value: \x7b\x7b foo.bar \x7d\x7d")
      (.fcons "foo" (.obj (.fcons "bar" (.num 5) .nil)) .nil) = .ok (.str "Value: 5") := by
  refine ⟨?_, ?_, rfl, ?_, rfl⟩
  · intro s outputs m hms htrim
    have hs : (s == "") = false := by
      cases hse : s == "" with
      | false => rfl
      | true =>
        have hempty : s = "" := by simpa using hse
        subst hempty
        exact absurd hms (by intro hcontra; exact List.noConfusion hcontra)
    rw [parseInput_str_unfold]
    simp only [jsFalsy, hs, Bool.false_eq_true, if_false]
    rw [hms]
    simp [htrim]
  · intro s outputs hno
    by_cases hse : s = ""
    · subst hse; rfl
    · have hf : (s == "") = false := by
        cases hse2 : s == "" with
        | false => rfl
        | true => exact absurd (by simpa using hse2) hse
      rw [parseInput_str_unfold]
      simp only [jsFalsy, hf, Bool.false_eq_true, if_false]
      cases hms : findMatches s with
      | nil => rfl
      | cons m rest =>
        cases rest with
        | nil => simp [hno m hms]
        | cons m2 rest2 => rfl
  · intro hcontra
    have : Value.num 5 = Value.str "5" := by
      have h1 : parseInput (.str "\x7b\x7b foo.bar \x7d\x7d")
          (.fcons "foo" (.obj (.fcons "bar" (.num 5) .nil)) .nil) = .ok (.num 5) := rfl
      have h2 := h1.symm.trans hcontra
      exact Except.ok.inj h2
    exact Value.noConfusion this

/-- Concrete instantiation of both universally quantified parts of
`spec_C3`. -/
theorem spec_C3_witness :
    parseInput (.str "\x7b\x7b foo.bar \x7d\x7d")
        (.fcons "foo" (.obj (.fcons "bar" (.num 5) .nil)) .nil) =
      calculateExpression (jsTrim " foo.bar ")
        (.fcons "foo" (.obj (.fcons "bar" (.num 5) .nil)) .nil)
  ∧ parseInput (.str "Value: \x7b\x7b foo.bar \x7d\x7d")
        (.fcons "foo" (.obj (.fcons "bar" (.num 5) .nil)) .nil) =
      (substitutePlaceholders (.fcons "foo" (.obj (.fcons "bar" (.num 5) .nil)) .nil)
        (findMatches "Value: \x7b\x7b foo.bar \x7d\x7d")
        "Value: \x7b\x7b foo.bar \x7d\x7d").map Value.str := by
  constructor
  · exact spec_C3.1 "\x7b\x7b foo.bar \x7d\x7d"
      (.fcons "foo" (.obj (.fcons "bar" (.num 5) .nil)) .nil)
      ⟨"\x7b\x7b foo.bar \x7d\x7d", " foo.bar "⟩ rfl rfl
  · refine spec_C3.2.1 "Value: \x7b\x7b foo.bar \x7d\x7d"
      (.fcons "foo" (.obj (.fcons "bar" (.num 5) .nil)) .nil) ?_
    intro m hm
    rw [show findMatches "Value: \x7b\x7b foo.bar \x7d\x7d" =
      [⟨"\x7b\x7b foo.bar \x7d\x7d", " foo.bar "⟩] from rfl] at hm
    injection hm with h1 _
    subst h1
    decide

/-- Counterexample to claim C4 as stated: resolving the input object
`a: (empty object)` yields a parent whose key `a` is still present —
holding the value `undefined` — rather than the key being omitted from the
parent's resolved output. -/
theorem spec_C4_counterexample :
    parseInput (.obj (.fcons "a" (.obj .nil) .nil)) .nil =
      .ok (.obj (.fcons "a" .undef .nil))
  ∧ Fields.hasKey (.fcons "a" .undef .nil) "a" = true := ⟨rfl, rfl⟩

/-- Claim C4 (amended): an object that resolves to an empty object is
resolved to `undefined`; its parent key remains present and holds
`undefined` (which disappears only on JSON serialization), never an
empty-object value. -/
theorem spec_C4 :
    (∀ (outputs : Fields), parseInput (.obj .nil) outputs = .ok .undef)
  ∧ (∀ (k : String) (rest outputs : Fields),
      parseInputFields (.fcons k (.obj .nil) rest) outputs =
        (parseInputFields rest outputs).map (Fields.fcons k .undef))
  ∧ (∀ (k : String) (rest outputs : Fields),
      parseStepInputs (.fcons k (.obj .nil) rest) outputs =
        (parseStepInputs rest outputs).map (Fields.fcons k .undef))
  ∧ jsonStringify (.obj (.fcons "a" .undef .nil)) =
      String.singleton lbraceChar ++ String.singleton rbraceChar := by
  refine ⟨fun outputs => rfl, ?_, ?_, rfl⟩
  · intro k rest outputs
    have hu : parseInput (Value.obj Fields.nil) outputs = Except.ok Value.undef := rfl
    cases hr : parseInputFields rest outputs with
    | error e =>
      simp [parseInputFields, hr, hu, exceptBindOk, exceptBindError, exceptMapError]
    | ok rest2 => simp [parseInputFields, hr, hu, exceptBindOk, exceptMapOk]
  · intro k rest outputs
    have hu : parseInput (Value.obj Fields.nil) outputs = Except.ok Value.undef := rfl
    cases hr : parseStepInputs rest outputs with
    | error e =>
      simp [parseStepInputs, hr, hu, exceptBindOk, exceptBindError, exceptMapError]
    | ok rest2 => simp [parseStepInputs, hr, hu, exceptBindOk, exceptMapOk]

/-- Claim C7: a placeholder expression that is not a single bare path token
has every dotted path token substituted (per `substituteTokens`: values
quoted and stringified for strings/objects, tokens inside quoted literals —
odd count of preceding quote characters — skipped) and the result is
evaluated arithmetically; in particular `{{ foo.bar - foo.baz }}` against
`foo: (bar: 5, baz: 3)` resolves to the number 2, and a token preceded by an
odd number of quotes is left untouched by the substitution. -/
theorem spec_C7 :
    (∀ (input : String) (references : Fields),
      (∀ m : TMatch, findTokens input = [m] → m.tok ≠ jsTrim input) →
      calculateExpression input references = mathEval (substituteTokens input references))
  ∧ substituteTokens "foo.bar - foo.baz"
      (.fcons "foo" (.obj (.fcons "bar" (.num 5) (.fcons "baz" (.num 3) .nil))) .nil) =
      "5 - 3"
  ∧ substituteTokens "\"a.b\" + foo.bar"
      (.fcons "foo" (.obj (.fcons "bar" (.num 5) (.fcons "baz" (.num 3) .nil))) .nil) =
      "\"a.b\" + 5"
  ∧ mathEval "5 - 3" = .ok (.num 2)
  ∧ parseInput (.str "\x7b\x7b foo.bar - foo.baz \x7d\x7d")
      (.fcons "foo" (.obj (.fcons "bar" (.num 5) (.fcons "baz" (.num 3) .nil))) .nil) =
      .ok (.num 2) := by
  refine ⟨?_, rfl, rfl, rfl, rfl⟩
  intro input references hno
  cases hms : findTokens input with
  | nil => simp [calculateExpression, hms]
  | cons m rest =>
    cases rest with
    | nil => simp [calculateExpression, hms, hno m hms]
    | cons m2 rest2 => simp [calculateExpression, hms]

/-- Concrete instantiation of the universally quantified part of
`spec_C7`. -/
theorem spec_C7_witness :
    calculateExpression "foo.bar - foo.baz"
        (.fcons "foo" (.obj (.fcons "bar" (.num 5) (.fcons "baz" (.num 3) .nil))) .nil) =
      mathEval (substituteTokens "foo.bar - foo.baz"
        (.fcons "foo" (.obj (.fcons "bar" (.num 5) (.fcons "baz" (.num 3) .nil))) .nil)) := by
  refine spec_C7.1 "foo.bar - foo.baz"
    (.fcons "foo" (.obj (.fcons "bar" (.num 5) (.fcons "baz" (.num 3) .nil))) .nil) ?_
  intro m hm
  rw [show findTokens "foo.bar - foo.baz" =
    [⟨"foo.bar", 0⟩, ⟨"foo.baz", 10⟩] from rfl] at hm
  exact absurd hm (by intro hcontra; injection hcontra with _ h2; exact List.noConfusion h2)

/-- Claim C9: when the translated template (with `***` wildcards) does not
match the subject string, the `extract` built-in returns the empty
string. -/
theorem spec_C9 :
    ∀ (str template replace : String),
      templateMatches template str = false →
      extractFn str template replace = "" := by
  intro str template replace h
  simp [extractFn, h]

/-- Concrete instantiation of `spec_C9`: the template `a***b` does not
match `hello`, so `extract` returns the empty string. -/
theorem spec_C9_witness :
    templateMatches "a***b" "hello" = false ∧ extractFn "hello" "a***b" "x" = "" :=
  ⟨rfl, spec_C9 "hello" "a***b" "x" rfl⟩

/-- Membership in a fold of appended event lists. -/
theorem mem_foldrAppend {α β : Type} (f : α → List β) :
    ∀ (l : List α) (x : β),
      (x ∈ l.foldr (fun a acc => f a ++ acc) []) ↔ ∃ a, a ∈ l ∧ x ∈ f a := by
  intro l x
  induction l with
  | nil => simp
  | cons a rest ih => simp [List.mem_append, ih]

/-- Every node the executor reaches gets a terminal per-action record: its
trace contains a completed or a failed mark for the node itself. -/
theorem runTree_root_terminal (a : WAction) (bag : Bag) :
    RunEvent.actionCompleted a.id ∈ (runTree a bag).1 ∨
      RunEvent.actionFailed a.id ∈ (runTree a bag).1 := by
  match a with
  | .mk i beh next =>
    cases beh with
    | credentialsFailure => right; simp [runTree, WAction.id]
    | inputsFailure => right; simp [runTree, WAction.id]
    | operationFailure => right; simp [runTree, WAction.id]
    | operationSuccess outs cond sleepUntil =>
      left
      cases sleepUntil with
      | some t => simp [runTree, WAction.id]
      | none => simp [runTree, WAction.id]

/- The run-completed mark is never emitted inside a tree walk: it is
appended only by the top-level loop (or the wake-up path) after every
branch of the fan-out has finished. -/
mutual
theorem runCompleted_notin_runTree :
    ∀ (a : WAction) (bag : Bag), RunEvent.runCompleted ∉ (runTree a bag).1
  | .mk i beh next, bag => by
    cases beh with
    | credentialsFailure => simp [runTree]
    | inputsFailure => simp [runTree]
    | operationFailure => simp [runTree]
    | operationSuccess outs cond sleepUntil =>
      cases sleepUntil with
      | some t => simp [runTree]
      | none =>
        have h := runCompleted_notin_runEdges next (jsString cond) (bagInsert bag i outs)
        simp [runTree]
        exact h
theorem runCompleted_notin_runEdges :
    ∀ (es : EdgeList) (condStr : String) (bag : Bag),
      RunEvent.runCompleted ∉ (runEdges es condStr bag).1
  | .nil, _, _ => by simp [runEdges]
  | .econs c t rest, condStr, bag => by
    have h1 := runCompleted_notin_runTree t bag
    have h2 := runCompleted_notin_runEdges rest condStr bag
    by_cases hc : edgeSelected c condStr = true
    · by_cases ht : (runTree t bag).2 = true
      · simp [runEdges, hc, ht]
        exact h1
      · simp [runEdges, hc, ht, List.mem_append]
        exact ⟨h1, h2⟩
    · simp [runEdges, hc]
      exact h2
end

/-- When no bag's fan-out throws, the loop of `runWorkflowActions` runs
every bag and then emits exactly the final run-completed mark. -/
theorem runBags_no_throw (roots : List WAction) :
    ∀ (bags : List Bag), (∀ bag ∈ bags, (runTrees roots bag).2 = false) →
      runBags roots bags =
        bags.foldr (fun bag acc => (runTrees roots bag).1 ++ acc) [] ++ [.runCompleted] := by
  intro bags h
  induction bags with
  | nil => rfl
  | cons bag rest ih =>
    have hb : (runTrees roots bag).2 = false := h bag (List.mem_cons_self bag rest)
    have hrest := ih (fun b hbv => h b (List.mem_cons_of_mem bag hbv))
    simp [runBags, hb, hrest]

/-- Counterexample to claim C2 as stated: a credentials-resolution failure
does not stop only its branch.  In a tree whose root succeeds and has two
child branches, the first child failing on credentials marks itself failed
and then throws; the second child branch never starts (no terminal state for
it) and the run-completed mark is never emitted, even though every started
branch terminated. -/
theorem spec_C2_counterexample :
    runWorkflowActions
        [.mk "p" (.operationSuccess .nil .undef none)
          (.econs none (.mk "c1" .credentialsFailure .nil)
            (.econs none (.mk "c2" (.operationSuccess .nil .undef none) .nil) .nil))]
        [[]] =
      [.actionRunning "p", .actionCompleted "p", .actionRunning "c1", .actionFailed "c1"]
  ∧ RunEvent.actionRunning "c2" ∉
      runWorkflowActions
        [.mk "p" (.operationSuccess .nil .undef none)
          (.econs none (.mk "c1" .credentialsFailure .nil)
            (.econs none (.mk "c2" (.operationSuccess .nil .undef none) .nil) .nil))]
        [[]]
  ∧ RunEvent.runCompleted ∉
      runWorkflowActions
        [.mk "p" (.operationSuccess .nil .undef none)
          (.econs none (.mk "c1" .credentialsFailure .nil)
            (.econs none (.mk "c2" (.operationSuccess .nil .undef none) .nil) .nil))]
        [[]] := by
  refine ⟨rfl, ?_, ?_⟩
  · rw [show runWorkflowActions
        [.mk "p" (.operationSuccess .nil .undef none)
          (.econs none (.mk "c1" .credentialsFailure .nil)
            (.econs none (.mk "c2" (.operationSuccess .nil .undef none) .nil) .nil))]
        [[]] =
      [.actionRunning "p", .actionCompleted "p", .actionRunning "c1", .actionFailed "c1"] from rfl]
    simp
  · rw [show runWorkflowActions
        [.mk "p" (.operationSuccess .nil .undef none)
          (.econs none (.mk "c1" .credentialsFailure .nil)
            (.econs none (.mk "c2" (.operationSuccess .nil .undef none) .nil) .nil))]
        [[]] =
      [.actionRunning "p", .actionCompleted "p", .actionRunning "c1", .actionFailed "c1"] from rfl]
    simp

/-- Claim C2 (amended): input-resolution and operation failures are caught
and stop only their branch ([running, failed] and no throw); a
credentials-resolution failure marks the action failed and then throws.
When no fan-out throws, every bag's branches all run, each reached node gets
a terminal record, and the run-completed mark is emitted exactly once, after
every branch event. -/
theorem spec_C2 :
    (∀ (i : String) (next : EdgeList) (bag : Bag),
      runTree (.mk i .inputsFailure next) bag =
        ([.actionRunning i, .actionFailed i], false))
  ∧ (∀ (i : String) (next : EdgeList) (bag : Bag),
      runTree (.mk i .operationFailure next) bag =
        ([.actionRunning i, .actionFailed i], false))
  ∧ (∀ (i : String) (next : EdgeList) (bag : Bag),
      runTree (.mk i .credentialsFailure next) bag =
        ([.actionRunning i, .actionFailed i], true))
  ∧ (∀ (roots : List WAction) (bags : List Bag),
      (∀ bag ∈ bags, (runTrees roots bag).2 = false) →
      runWorkflowActions roots bags =
        bags.foldr (fun bag acc => (runTrees roots bag).1 ++ acc) [] ++ [.runCompleted])
  ∧ (∀ (roots : List WAction) (bags : List Bag) (a : WAction) (bag : Bag),
      a ∈ roots → bag ∈ bags →
      (∀ bag2 ∈ bags, (runTrees roots bag2).2 = false) →
      RunEvent.actionCompleted a.id ∈ runWorkflowActions roots bags ∨
        RunEvent.actionFailed a.id ∈ runWorkflowActions roots bags)
  ∧ (∀ (roots : List WAction) (bags : List Bag),
      RunEvent.runCompleted ∉
        bags.foldr (fun bag acc => (runTrees roots bag).1 ++ acc) []) := by
  refine ⟨fun i next bag => rfl, fun i next bag => rfl, fun i next bag => rfl, ?_, ?_, ?_⟩
  · exact fun roots bags h => runBags_no_throw roots bags h
  · intro roots bags a bag ha hb hnothrow
    have heq := runBags_no_throw roots bags hnothrow
    have hterm := runTree_root_terminal a bag
    have hin : ∀ x : RunEvent, x ∈ (runTree a bag).1 → x ∈ runWorkflowActions roots bags := by
      intro x hx
      rw [show runWorkflowActions roots bags = runBags roots bags from rfl, heq]
      apply List.mem_append.mpr
      left
      refine (mem_foldrAppend (fun bag2 => (runTrees roots bag2).1) bags x).mpr ⟨bag, hb, ?_⟩
      exact (mem_foldrAppend (fun r => (runTree r bag).1) roots x).mpr ⟨a, ha, hx⟩
    rcases hterm with h | h
    · exact Or.inl (hin _ h)
    · exact Or.inr (hin _ h)
  · intro roots bags
    intro hmem
    rcases (mem_foldrAppend (fun bag => (runTrees roots bag).1) bags _).mp hmem with
      ⟨bag, _, hx⟩
    rcases (mem_foldrAppend (fun r => (runTree r bag).1) roots _).mp hx with ⟨r, _, hx2⟩
    exact runCompleted_notin_runTree r bag hx2

/-- Concrete instantiation of the quantified parts of `spec_C2`: one root
succeeds, its sibling fails on input resolution (caught), the run trace is
the branch events followed by the single run-completed mark, and the failed
sibling's branch still carries its terminal record. -/
theorem spec_C2_witness :
    runWorkflowActions
        [.mk "a" (.operationSuccess .nil .undef none) .nil, .mk "b" .inputsFailure .nil]
        [[]] =
      ([[]] : List Bag).foldr
        (fun bag acc =>
          (runTrees
            [.mk "a" (.operationSuccess .nil .undef none) .nil,
             .mk "b" .inputsFailure .nil] bag).1 ++ acc) [] ++ [.runCompleted]
  ∧ (RunEvent.actionCompleted (WAction.mk "b" .inputsFailure .nil).id ∈
      runWorkflowActions
        [.mk "a" (.operationSuccess .nil .undef none) .nil, .mk "b" .inputsFailure .nil]
        [[]] ∨
     RunEvent.actionFailed (WAction.mk "b" .inputsFailure .nil).id ∈
      runWorkflowActions
        [.mk "a" (.operationSuccess .nil .undef none) .nil, .mk "b" .inputsFailure .nil]
        [[]]) := by
  constructor
  · refine spec_C2.2.2.2.1
      [.mk "a" (.operationSuccess .nil .undef none) .nil, .mk "b" .inputsFailure .nil]
      [[]] ?_
    intro bag hb
    rcases List.mem_cons.mp hb with heq | habs
    · subst heq; rfl
    · exact absurd habs (List.not_mem_nil bag)
  · refine spec_C2.2.2.2.2.1
      [.mk "a" (.operationSuccess .nil .undef none) .nil, .mk "b" .inputsFailure .nil]
      [[]] (.mk "b" .inputsFailure .nil) [] ?_ ?_ ?_
    · simp
    · simp
    · intro bag hb
      rcases List.mem_cons.mp hb with heq | habs
      · subst heq; rfl
      · exact absurd habs (List.not_mem_nil bag)

/-- Claim C5: a node whose operation result carries a sleep instant halts
its branch — its whole trace is the running and completed marks followed by
exactly one persisted continuation holding the bag extended with the node's
output, with no successor events and no throw — and the wake-up path runs
every declared successor with exactly the stored bag, emitting the
run-completed mark after them; the edge conditions play no role at wake-up
(changing any edge's condition leaves the wake-up trace unchanged). -/
theorem spec_C5 :
    (∀ (i : String) (outs : Fields) (cond : Value) (t : Nat) (next : EdgeList) (bag : Bag),
      runTree (.mk i (.operationSuccess outs cond (some t)) next) bag =
        ([.actionRunning i, .actionCompleted i, .sleepPersisted i (bagInsert bag i outs)],
         false))
  ∧ (∀ (i : String) (outs : Fields) (cond : Value) (t : Nat) (next : EdgeList) (bag : Bag),
      ((runTree (.mk i (.operationSuccess outs cond (some t)) next) bag).1.countP
        (fun e => match e with | .sleepPersisted _ _ => true | _ => false)) = 1)
  ∧ (∀ (a : WAction) (storedBag : Bag),
      wakeUpWorkflowRun a storedBag =
        .runAwake ::
          (if (edgeTargets a.next).any (fun t => (runTree t storedBag).2) then
            (edgeTargets a.next).foldr (fun t acc => (runTree t storedBag).1 ++ acc) []
          else
            (edgeTargets a.next).foldr (fun t acc => (runTree t storedBag).1 ++ acc) [] ++
              [.runCompleted]))
  ∧ (∀ (i : String) (beh : StepBehavior) (c c2 : Option String) (t : WAction)
        (rest : EdgeList) (bag : Bag),
      wakeUpWorkflowRun (.mk i beh (.econs c t rest)) bag =
        wakeUpWorkflowRun (.mk i beh (.econs c2 t rest)) bag) := by
  refine ⟨fun i outs cond t next bag => rfl, ?_, fun a storedBag => rfl,
    fun i beh c c2 t rest bag => rfl⟩
  intro i outs cond t next bag
  rfl

/-- Counterexample to claim C6 as stated: an edge carrying the condition
`""` (a present condition, not the absence of one) is selected even when the
operation's returned branch condition has a different string form, because
the source tests `!nextAction.condition`, which is true for the empty
string; the edge's target is executed. -/
theorem spec_C6_counterexample :
    edgeSelected (some "") "true" = true
  ∧ (some "" : Option String) ≠ none
  ∧ ("" : String) ≠ "true"
  ∧ (runTree (.mk "n" (.operationSuccess .nil (.vbool true) none)
        (.econs (some "") (.mk "m" .operationFailure .nil) .nil)) []).1 =
      [.actionRunning "n", .actionCompleted "n", .actionRunning "m", .actionFailed "m"] := by
  refine ⟨rfl, ?_, ?_, rfl⟩
  · intro h; exact Option.noConfusion h
  · decide

/-- Claim C6 (amended): an edge with no condition, or with an empty-string
condition, is always selected; an edge with a non-empty condition is
selected exactly when it equals the string form of the operation's returned
branch condition; and only selected edges' targets are executed next. -/
theorem spec_C6 :
    (∀ (condStr : String), edgeSelected none condStr = true)
  ∧ (∀ (condStr : String), edgeSelected (some "") condStr = true)
  ∧ (∀ (s condStr : String), s ≠ "" →
      (edgeSelected (some s) condStr = true ↔ s = condStr))
  ∧ (∀ (i : String) (outs : Fields) (cond : Value) (next : EdgeList) (bag : Bag),
      runTree (.mk i (.operationSuccess outs cond none) next) bag =
        (.actionRunning i :: .actionCompleted i ::
          (runEdges next (jsString cond) (bagInsert bag i outs)).1,
         (runEdges next (jsString cond) (bagInsert bag i outs)).2))
  ∧ (∀ (c : Option String) (t : WAction) (rest : EdgeList) (condStr : String) (bag : Bag),
      edgeSelected c condStr = false →
      runEdges (.econs c t rest) condStr bag = runEdges rest condStr bag)
  ∧ (∀ (c : Option String) (t : WAction) (rest : EdgeList) (condStr : String) (bag : Bag),
      edgeSelected c condStr = true →
      runEdges (.econs c t rest) condStr bag =
        (if (runTree t bag).2 then ((runTree t bag).1, true)
         else ((runTree t bag).1 ++ (runEdges rest condStr bag).1,
               (runEdges rest condStr bag).2))) := by
  refine ⟨fun condStr => rfl, fun condStr => rfl, ?_, ?_, ?_, ?_⟩
  · intro s condStr hs
    simp [edgeSelected, hs]
  · intro i outs cond next bag
    rfl
  · intro c t rest condStr bag hsel
    simp [runEdges, hsel]
  · intro c t rest condStr bag hsel
    by_cases ht : (runTree t bag).2 = true
    · simp [runEdges, hsel, ht]
    · simp [runEdges, hsel, ht]

/-- Concrete instantiation of the hypothesis-bearing parts of `spec_C6`:
a non-empty condition that differs from the branch condition is not
selected and its edge contributes nothing; a matching condition is selected
and its target's trace is emitted. -/
theorem spec_C6_witness :
    (edgeSelected (some "yes") "no" = true ↔ ("yes" : String) = "no")
  ∧ runEdges (.econs (some "yes") (.mk "m" .operationFailure .nil) .nil) "no" [] =
      runEdges .nil "no" []
  ∧ runEdges (.econs (some "yes") (.mk "m" .operationFailure .nil) .nil) "yes" [] =
      (if (runTree (.mk "m" .operationFailure .nil) []).2 then
        ((runTree (.mk "m" .operationFailure .nil) []).1, true)
      else
        ((runTree (.mk "m" .operationFailure .nil) []).1 ++ (runEdges .nil "yes" []).1,
         (runEdges .nil "yes" []).2)) := by
  refine ⟨?_, ?_, ?_⟩
  · exact spec_C6.2.2.1 "yes" "no" (by decide)
  · exact spec_C6.2.2.2.2.1 (some "yes") (.mk "m" .operationFailure .nil) .nil "no" [] rfl
  · exact spec_C6.2.2.2.2.2 (some "yes") (.mk "m" .operationFailure .nil) .nil "yes" [] rfl

/-- Claim C8: a workflow update whose `runOnFailure` names the workflow's
own id is rejected at update time with the bad-request validation error,
and the stored workflow collection is left unchanged. -/
theorem spec_C8 :
    ∀ (db : List Workflow) (id : String) (u : WorkflowUpdate) (w : Workflow),
      findWorkflowById db id = some w →
      u.runOnFailure = some w.id →
      WorkflowService.updateOne db id u =
        .error (.badRequest "Run On Failure cannot be set with the same workflow ID.")
      ∧ updateOneState db id u = db := by
  intro db id u w hfind hrof
  have h1 : WorkflowService.updateOne db id u =
      .error (.badRequest "Run On Failure cannot be set with the same workflow ID.") := by
    simp [WorkflowService.updateOne, hfind, hrof]
  exact ⟨h1, by simp [updateOneState, h1]⟩

/-- Concrete instantiation of `spec_C8`. -/
theorem spec_C8_witness :
    WorkflowService.updateOne [⟨"w1", "owner", "wf", none⟩] "w1" ⟨none, some "w1"⟩ =
      .error (.badRequest "Run On Failure cannot be set with the same workflow ID.")
  ∧ updateOneState [⟨"w1", "owner", "wf", none⟩] "w1" ⟨none, some "w1"⟩ =
      [⟨"w1", "owner", "wf", none⟩] :=
  spec_C8 [⟨"w1", "owner", "wf", none⟩] "w1" ⟨none, some "w1"⟩ ⟨"w1", "owner", "wf", none⟩
    rfl rfl
